import Mathlib

/-!
Verification of an email-attachment extraction utility.

The development shallowly embeds the utility's components: the filename
sanitizer, the unique-path resolver, the attachment selector, the
attachment writer and the per-file run orchestrator.  The external MIME
parser is treated as a collaborator: a parsed message is modelled as an
opaque tree exposing exactly the accessors the program consults.
Filesystem existence is a boolean predicate on paths, the random source
is an arbitrary stream of naturals, and the unbounded retry loop of the
unique-path resolver is given explicit fuel (`none` models divergence).
-/

/-- The set of characters matched by the sanitizer's regular-expression
character class (slash, backslash, pipe, square and curly brackets, colon,
angle brackets, plus, equals, semicolon, comma, question and exclamation
marks, asterisk, double quote, tilde, hash, dollar, percent, ampersand,
at-sign, single quote). -/
def reservedChars : List Char :=
  ['/', '\\', '|', '[', ']', Char.ofNat 123, Char.ofNat 125, ':', '<', '>',
   '+', '=', ';', ',', '?', '!', '*', Char.ofNat 34, '~', '#', '$', '%', '&',
   '@', Char.ofNat 39]

/-- Substitution applied to a single character: reserved characters become
an underscore, all others are kept. -/
def sanChar (c : Char) : Char :=
  if reservedChars.contains c then '_' else c

/-- Embedding of `sanitize_filename`: the regular-expression substitution
replaces every occurrence of a reserved character by an underscore. -/
def sanitize_filename (s : String) : String :=
  String.mk (s.data.map sanChar)

/-- A parsed MIME message, as surfaced by the external parser.  Fields, in
order: whether the message is multipart, the parts its attachment iterator
yields, whether the message itself carries an attachment disposition, its
content disposition, its content type, its declared filename, its list of
sub-parts (the payload of a composite part), and its decoded byte payload
(absent when decoding yields nothing). -/
inductive Msg : Type where
  | mk : Bool → List Msg → Bool → Option String → String → Option String →
      List Msg → Option (List Nat) → Msg

def Msg.is_multipart : Msg → Bool
  | .mk b _ _ _ _ _ _ _ => b

def Msg.iter_attachments : Msg → List Msg
  | .mk _ l _ _ _ _ _ _ => l

def Msg.is_attachment : Msg → Bool
  | .mk _ _ b _ _ _ _ _ => b

def Msg.content_disposition : Msg → Option String
  | .mk _ _ _ d _ _ _ _ => d

def Msg.content_type : Msg → String
  | .mk _ _ _ _ t _ _ _ => t

def Msg.filename : Msg → Option String
  | .mk _ _ _ _ _ f _ _ => f

def Msg.parts : Msg → List Msg
  | .mk _ _ _ _ _ _ p _ => p

def Msg.decoded : Msg → Option (List Nat)
  | .mk _ _ _ _ _ _ _ d => d

/-- Embedding of `get_attachments`: multipart messages contribute the
parts of their attachment iterator; a non-multipart message contributes
itself exactly when it is an attachment or its disposition is inline;
otherwise the function falls through and yields nothing. -/
def get_attachments (msg : Msg) : Option (List Msg) :=
  if msg.is_multipart then some msg.iter_attachments
  else if msg.is_attachment || msg.content_disposition == some "inline" then
    some [msg]
  else none

lemma getD_map_sanChar (l : List Char) :
    ∀ i, i < l.length → (l.map sanChar).getD i 'a' = sanChar (l.getD i 'a') := by
  induction l with
  | nil => intro i h; simp at h
  | cons c t ih =>
    intro i h
    cases i with
    | zero => simp [List.getD]
    | succ j =>
      simp only [List.map, List.getD_cons_succ]
      exact ih j (by simpa using h)

lemma sanChar_sanChar (c : Char) : sanChar (sanChar c) = sanChar c := by
  unfold sanChar
  by_cases h : reservedChars.contains c = true
  · rw [if_pos h, if_neg]
    intro hu
    exact absurd hu (by decide)
  · rw [if_neg h, if_neg h]

/-- Claim C1: the attachment selector returns, for a multipart message,
exactly the parts the parser's attachment iterator yields in order; for a
non-multipart message, a single-element result containing the message
itself exactly when the message is marked as an attachment or its content
disposition is inline, and an absent result otherwise. -/
theorem claim_C1_selector (msg : Msg) :
    (msg.is_multipart = true → get_attachments msg = some msg.iter_attachments) ∧
    (msg.is_multipart = false →
      (get_attachments msg = some [msg] ↔
        (msg.is_attachment = true ∨ msg.content_disposition = some "inline")) ∧
      (¬ (msg.is_attachment = true ∨ msg.content_disposition = some "inline") →
        get_attachments msg = none)) := by
  unfold get_attachments
  refine ⟨fun h => by simp [h], fun h => ?_⟩
  rw [h]
  by_cases ha : msg.is_attachment = true
  · simp [ha]
  · by_cases hd : msg.content_disposition = some "inline"
    · simp [ha, hd]
    · constructor
      · constructor
        · intro hc
          simp [ha, hd] at hc
        · intro hc
          rcases hc with hc | hc
          · exact absurd hc ha
          · exact absurd hc hd
      · intro _
        simp [ha, hd]

/-- Witness for claim C1 at a concrete inline single-part message. -/
theorem claim_C1_selector_witness :
    get_attachments (Msg.mk false [] false (some "inline") "text/plain" none [] none)
      = some [Msg.mk false [] false (some "inline") "text/plain" none [] none] :=
  ((claim_C1_selector
      (Msg.mk false [] false (some "inline") "text/plain" none [] none)).2 rfl).1.mpr
    (Or.inr rfl)

/-- Claim C2: the sanitizer preserves the length of its input, maps every
occurrence of a reserved character to an underscore, and leaves every
other character unchanged. -/
theorem claim_C2_sanitize (s : String) (i : Nat) (h : i < s.data.length) :
    (sanitize_filename s).length = s.length ∧
    (reservedChars.contains (s.data.getD i 'a') = true →
      (sanitize_filename s).data.getD i 'a' = '_') ∧
    (reservedChars.contains (s.data.getD i 'a') = false →
      (sanitize_filename s).data.getD i 'a' = s.data.getD i 'a') := by
  have hdata : (sanitize_filename s).data = s.data.map sanChar := rfl
  refine ⟨?_, ?_, ?_⟩
  · show (s.data.map sanChar).length = s.data.length
    rw [List.length_map]
  · intro hc
    rw [hdata, getD_map_sanChar s.data i h]
    unfold sanChar
    rw [hc, if_pos rfl]
  · intro hc
    rw [hdata, getD_map_sanChar s.data i h]
    unfold sanChar
    rw [hc]
    simp

/-- Witness for claim C2 at the string "a/b" and index 1. -/
theorem claim_C2_sanitize_witness :
    (sanitize_filename "a/b").length = ("a/b" : String).length ∧
    (reservedChars.contains (("a/b" : String).data.getD 1 'a') = true →
      (sanitize_filename "a/b").data.getD 1 'a' = '_') ∧
    (reservedChars.contains (("a/b" : String).data.getD 1 'a') = false →
      (sanitize_filename "a/b").data.getD 1 'a' = ("a/b" : String).data.getD 1 'a') :=
  claim_C2_sanitize "a/b" 1 (by decide)

/-- Claim C9: the sanitizer is a pure function and is idempotent:
sanitizing twice equals sanitizing once. -/
theorem claim_C9_idempotent (s : String) :
    sanitize_filename (sanitize_filename s) = sanitize_filename s := by
  unfold sanitize_filename
  simp only [String.data]
  rw [List.map_map]
  have : sanChar ∘ sanChar = sanChar := funext fun c => sanChar_sanChar c
  rw [this]

/-- Last index of a character in a list, minus one when absent: the
embedding of Python string rfind restricted to a single character. -/
def rfind : List Char → Char → Int
  | [], _ => -1
  | x :: xs, c =>
    if 0 ≤ rfind xs c then rfind xs c + 1
    else if x == c then 0 else -1

/-- Whether some position in the half-open index interval holds a
character other than a dot: the scan `os.path.splitext` performs over the
leading dots of a basename. -/
def hasNonDot (cs : List Char) (start stop : Nat) : Bool :=
  (List.range' start (stop - start)).any fun k => !(cs.getD k '.' == '.')

/-- Embedding of `os.path.splitext` (POSIX rules): split off the
extension at the last dot of the final path component, unless every
character between the last separator and that dot is itself a dot. -/
def splitext (p : String) : String × String :=
  if rfind p.data '/' < rfind p.data '.' then
    if hasNonDot p.data (rfind p.data '/' + 1).toNat (rfind p.data '.').toNat then
      (String.mk (p.data.take (rfind p.data '.').toNat),
       String.mk (p.data.drop (rfind p.data '.').toNat))
    else (p, "")
  else (p, "")

/-- The alphabet `random.choice` draws from: ASCII letters then digits. -/
def alphabet : List Char :=
  ("abcdefghijklmnopqrstuvwxyzABCDEFGHIJKLMNOPQRSTUVWXYZ0123456789" : String).data

/-- Five consecutive draws from the random stream, each selecting one
alphabet character: the 5-character random suffix. -/
def suffix5 (stream : Nat → Nat) (pos : Nat) : String :=
  String.mk ((List.range 5).map fun j =>
    alphabet.getD (stream (pos + j) % alphabet.length) '_')

/-- The retry loop of `get_unique_path`: while the candidate exists, build
a fresh candidate from the stem and extension of the original path and a
new 5-character suffix.  Fuel bounds the number of iterations; `none`
models the loop running forever. -/
def uniqueLoop (fs : String → Bool) (stream : Nat → Nat) (stem ext : String) :
    Nat → Nat → String → Option (String × Nat)
  | 0, _, _ => none
  | fuel + 1, pos, path =>
    if fs path then
      uniqueLoop fs stream stem ext fuel (pos + 5)
        (stem ++ "_" ++ suffix5 stream pos ++ ext)
    else some (path, pos)

/-- Embedding of `get_unique_path`: the stem and extension are computed
once from the original candidate, then the retry loop runs.  The returned
number records how much of the random stream was consumed. -/
def get_unique_path (fs : String → Bool) (stream : Nat → Nat) (fuel pos : Nat)
    (path : String) : Option (String × Nat) :=
  uniqueLoop fs stream (splitext path).1 (splitext path).2 fuel pos path

lemma neg_one_le_rfind (cs : List Char) (c : Char) : -1 ≤ rfind cs c := by
  induction cs with
  | nil => simp [rfind]
  | cons x xs ih =>
    simp only [rfind]
    split
    · omega
    · split <;> omega

lemma rfind_lt_length (cs : List Char) (c : Char) :
    rfind cs c < (cs.length : Int) := by
  induction cs with
  | nil => simp [rfind]
  | cons x xs ih =>
    simp only [rfind, List.length_cons]
    split
    · push_cast; omega
    · split <;> (push_cast; omega)

lemma rfind_of_not_mem {cs : List Char} {c : Char} (h : c ∉ cs) :
    rfind cs c = -1 := by
  induction cs with
  | nil => rfl
  | cons x xs ih =>
    rw [List.mem_cons, not_or] at h
    have h1 : rfind xs c = -1 := ih h.2
    simp only [rfind, h1]
    rw [if_neg (by omega), if_neg]
    intro hxc
    exact h.1 (beq_iff_eq.mp hxc).symm

lemma rfind_append (a b : List Char) (c : Char) :
    rfind (a ++ b) c =
      if 0 ≤ rfind b c then (a.length : Int) + rfind b c else rfind a c := by
  induction a with
  | nil =>
    have hb := neg_one_le_rfind b c
    by_cases h : 0 ≤ rfind b c
    · rw [List.nil_append, if_pos h]
      simp
    · rw [List.nil_append, if_neg h]
      have h1 : rfind b c = -1 := by omega
      rw [h1]
      rfl
  | cons x xs ih =>
    rw [List.cons_append]
    show (if 0 ≤ rfind (xs ++ b) c then rfind (xs ++ b) c + 1
        else if x == c then 0 else -1) =
      if 0 ≤ rfind b c then ((x :: xs).length : Int) + rfind b c
      else rfind (x :: xs) c
    rw [ih]
    by_cases hb : 0 ≤ rfind b c
    · simp only [if_pos hb]
      rw [if_pos (by omega), List.length_cons]
      push_cast
      omega
    · simp only [if_neg hb]
      rfl

lemma rfind_split (cs : List Char) (c : Char) (d : Nat) (hd : d ≤ cs.length) :
    rfind cs c = if 0 ≤ rfind (cs.drop d) c
      then (d : Int) + rfind (cs.drop d) c else rfind (cs.take d) c := by
  conv_lhs => rw [← List.take_append_drop d cs]
  rw [rfind_append, List.length_take, Nat.min_eq_left hd]

lemma splitext_eq_split {p : String}
    (h1 : rfind p.data '/' < rfind p.data '.')
    (h2 : hasNonDot p.data (rfind p.data '/' + 1).toNat
            (rfind p.data '.').toNat = true) :
    splitext p = (String.mk (p.data.take (rfind p.data '.').toNat),
                  String.mk (p.data.drop (rfind p.data '.').toNat)) := by
  unfold splitext
  rw [if_pos h1, if_pos h2]

lemma splitext_eq_self_of_le {p : String}
    (h1 : ¬ rfind p.data '/' < rfind p.data '.') :
    splitext p = (p, "") := by
  unfold splitext
  rw [if_neg h1]

lemma splitext_eq_self_of_dots {p : String}
    (h2 : ¬ hasNonDot p.data (rfind p.data '/' + 1).toNat
            (rfind p.data '.').toNat = true) :
    splitext p = (p, "") := by
  unfold splitext
  by_cases h1 : rfind p.data '/' < rfind p.data '.'
  · rw [if_pos h1, if_neg h2]
  · rw [if_neg h1]

lemma alphabet_no_sep : ∀ c ∈ alphabet, ¬ c = '.' ∧ ¬ c = '/' := by decide

lemma suffix5_length (stream : Nat → Nat) (i : Nat) :
    (suffix5 stream i).length = 5 := by
  show ((List.range 5).map _).length = 5
  rw [List.length_map, List.length_range]

lemma suffix5_mem_alphabet (stream : Nat → Nat) (i : Nat) :
    ∀ c ∈ (suffix5 stream i).data, c ∈ alphabet := by
  intro c hc
  have hc2 : c ∈ (List.range 5).map
      (fun j => alphabet.getD (stream (i + j) % alphabet.length) '_') := hc
  rw [List.mem_map] at hc2
  obtain ⟨j, _, hj⟩ := hc2
  rw [← hj]
  have hlt : stream (i + j) % alphabet.length < alphabet.length :=
    Nat.mod_lt _ (by decide)
  rw [List.getD_eq_getElem alphabet '_' hlt]
  exact List.getElem_mem hlt

lemma any_congr_aux {p q : Nat → Bool} :
    ∀ l : List Nat, (∀ x ∈ l, p x = q x) → l.any p = l.any q := by
  intro l
  induction l with
  | nil => intro _; rfl
  | cons x xs ih =>
    intro h
    simp only [List.any_cons]
    rw [h x (List.mem_cons_self x xs), ih fun y hy => h y (List.mem_cons_of_mem x hy)]

lemma hasNonDot_append (cs ext2 : List Char) (a b : Nat) (hb : b ≤ cs.length) :
    hasNonDot (cs ++ ext2) a b = hasNonDot cs a b := by
  unfold hasNonDot
  apply any_congr_aux
  intro k hk
  rw [List.mem_range'_1] at hk
  have hk1 := hk.1
  have hk2 := hk.2
  have hklt : k < cs.length := by omega
  rw [List.getD_append _ _ _ _ hklt]

lemma splitext_stem_extends (path s5x : String)
    (h5 : ∀ c ∈ s5x.data, ¬ c = '.' ∧ ¬ c = '/') :
    (splitext path).1.data <+:
      (splitext ((splitext path).1 ++ "_" ++ s5x ++ (splitext path).2)).1.data := by
  have hmid_dot : ('.' : Char) ∉ '_' :: s5x.data := by
    intro hmem
    rcases List.mem_cons.mp hmem with h | h
    · exact absurd h (by decide)
    · exact (h5 _ h).1 rfl
  have hmid_slash : ('/' : Char) ∉ '_' :: s5x.data := by
    intro hmem
    rcases List.mem_cons.mp hmem with h | h
    · exact absurd h (by decide)
    · exact (h5 _ h).2 rfl
  have hrmid_dot : rfind ('_' :: s5x.data) '.' = -1 := rfind_of_not_mem hmid_dot
  have hrmid_slash : rfind ('_' :: s5x.data) '/' = -1 := rfind_of_not_mem hmid_slash
  by_cases h1 : rfind path.data '/' < rfind path.data '.'
  · by_cases h2 : hasNonDot path.data (rfind path.data '/' + 1).toNat
        (rfind path.data '.').toNat = true
    · -- the original path splits into a stem and a dot-led extension
      have hd0 : 0 ≤ rfind path.data '.' := by
        have := neg_one_le_rfind path.data '/'
        omega
      have hdn : ((rfind path.data '.').toNat : Int) = rfind path.data '.' :=
        Int.toNat_of_nonneg hd0
      have hdlen : (rfind path.data '.').toNat ≤ path.data.length :=
        Int.toNat_le.mpr (le_of_lt (rfind_lt_length _ _))
      have hsp := splitext_eq_split h1 h2
      set dn := (rfind path.data '.').toNat with hdndef
      set stem := path.data.take dn with hstemdef
      set ext := path.data.drop dn with hextdef
      have hstemlen : stem.length = dn := by
        rw [hstemdef, List.length_take]
        exact Nat.min_eq_left hdlen
      have hsplit_dot := rfind_split path.data '.' dn hdlen
      rw [← hextdef, ← hstemdef] at hsplit_dot
      have hext_dot : rfind ext '.' = 0 := by
        by_cases hx : 0 ≤ rfind ext '.'
        · rw [if_pos hx] at hsplit_dot
          omega
        · rw [if_neg hx] at hsplit_dot
          have hbd : rfind stem '.' < (stem.length : Int) := rfind_lt_length _ _
          rw [hstemlen] at hbd
          omega
      have hsplit_slash := rfind_split path.data '/' dn hdlen
      rw [← hextdef, ← hstemdef] at hsplit_slash
      have hstem_slash : rfind stem '/' = rfind path.data '/' := by
        by_cases hx : 0 ≤ rfind ext '/'
        · rw [if_pos hx] at hsplit_slash
          omega
        · rw [if_neg hx] at hsplit_slash
          omega
      have hext_slash : ¬ 0 ≤ rfind ext '/' := by
        intro hx
        rw [if_pos hx] at hsplit_slash
        omega
      have hpd : ((splitext path).1 ++ "_" ++ s5x ++ (splitext path).2).data
          = (stem ++ ('_' :: s5x.data)) ++ ext := by
        rw [hsp]
        rw [String.data_append, String.data_append, String.data_append]
        show ((stem ++ ['_']) ++ s5x.data) ++ ext = _
        rw [List.append_assoc stem ['_'] s5x.data]
        rfl
      set p := (splitext path).1 ++ "_" ++ s5x ++ (splitext path).2 with hpdef
      set A := stem ++ ('_' :: s5x.data) with hAdef
      have hAlen : A.length = stem.length + (s5x.data.length + 1) := by
        rw [hAdef, List.length_append, List.length_cons]
      have hp_dot : rfind p.data '.' = (A.length : Int) := by
        rw [hpd, rfind_append, hext_dot, if_pos (le_refl 0), add_zero]
      have hrA_slash : rfind A '/' = rfind path.data '/' := by
        rw [hAdef, rfind_append, hrmid_slash, if_neg (by omega), hstem_slash]
      have hp_slash : rfind p.data '/' = rfind path.data '/' := by
        rw [hpd, rfind_append, if_neg hext_slash, hrA_slash]
      have hcond1 : rfind p.data '/' < rfind p.data '.' := by
        rw [hp_slash, hp_dot]
        have : (dn : Int) ≤ (A.length : Int) := by
          omega
        omega
      have hcond2 : hasNonDot p.data (rfind p.data '/' + 1).toNat
          (rfind p.data '.').toNat = true := by
        rw [hp_slash, hp_dot, hpd, Int.toNat_natCast]
        unfold hasNonDot
        rw [List.any_eq_true]
        refine ⟨stem.length, ?_, ?_⟩
        · rw [List.mem_range'_1]
          constructor
          · rw [Int.toNat_le]
            omega
          · have hle : (rfind path.data '/' + 1).toNat ≤ stem.length := by
              rw [Int.toNat_le]
              omega
            omega
        · rw [List.getD_append _ _ _ _ (by omega),
            List.getD_append_right _ _ _ _ (le_refl _), Nat.sub_self,
            List.getD_cons_zero]
          rfl
      have hsp2 := splitext_eq_split hcond1 hcond2
      rw [hsp, hsp2]
      show stem <+: (String.mk (p.data.take (rfind p.data '.').toNat)).data
      rw [hp_dot, Int.toNat_natCast]
      show stem <+: p.data.take A.length
      rw [hpd, List.take_left]
      exact ⟨'_' :: s5x.data, rfl⟩
    · -- all characters before the last dot of the basename are dots
      have hdlen : (rfind path.data '.').toNat ≤ path.data.length :=
        Int.toNat_le.mpr (le_of_lt (rfind_lt_length _ _))
      have hB : splitext path = (path, "") := splitext_eq_self_of_dots h2
      rw [hB]
      show path.data <+: (splitext (path ++ "_" ++ s5x ++ "")).1.data
      have hpd : (path ++ "_" ++ s5x ++ ("" : String)).data
          = path.data ++ ('_' :: s5x.data) := by
        rw [String.data_append, String.data_append, String.data_append]
        show ((path.data ++ ['_']) ++ s5x.data) ++ [] = _
        rw [List.append_nil, List.append_assoc]
        rfl
      have hp_dot : rfind (path ++ "_" ++ s5x ++ ("" : String)).data '.'
          = rfind path.data '.' := by
        rw [hpd, rfind_append, hrmid_dot, if_neg (by omega)]
      have hp_slash : rfind (path ++ "_" ++ s5x ++ ("" : String)).data '/'
          = rfind path.data '/' := by
        rw [hpd, rfind_append, hrmid_slash, if_neg (by omega)]
      have hp2 : ¬ hasNonDot (path ++ "_" ++ s5x ++ ("" : String)).data
          (rfind (path ++ "_" ++ s5x ++ ("" : String)).data '/' + 1).toNat
          (rfind (path ++ "_" ++ s5x ++ ("" : String)).data '.').toNat = true := by
        rw [hp_slash, hp_dot, hpd, hasNonDot_append _ _ _ _ hdlen]
        exact h2
      rw [splitext_eq_self_of_dots hp2]
      show path.data <+: (path ++ "_" ++ s5x ++ ("" : String)).data
      rw [hpd]
      exact ⟨'_' :: s5x.data, rfl⟩
  · -- no dot after the last separator: the path has no extension
    have hB : splitext path = (path, "") := splitext_eq_self_of_le h1
    rw [hB]
    show path.data <+: (splitext (path ++ "_" ++ s5x ++ "")).1.data
    have hpd : (path ++ "_" ++ s5x ++ ("" : String)).data
        = path.data ++ ('_' :: s5x.data) := by
      rw [String.data_append, String.data_append, String.data_append]
      show ((path.data ++ ['_']) ++ s5x.data) ++ [] = _
      rw [List.append_nil, List.append_assoc]
      rfl
    have hp_dot : rfind (path ++ "_" ++ s5x ++ ("" : String)).data '.'
        = rfind path.data '.' := by
      rw [hpd, rfind_append, hrmid_dot, if_neg (by omega)]
    have hp_slash : rfind (path ++ "_" ++ s5x ++ ("" : String)).data '/'
        = rfind path.data '/' := by
      rw [hpd, rfind_append, hrmid_slash, if_neg (by omega)]
    have hp1 : ¬ rfind (path ++ "_" ++ s5x ++ ("" : String)).data '/'
        < rfind (path ++ "_" ++ s5x ++ ("" : String)).data '.' := by
      rw [hp_slash, hp_dot]
      exact h1
    rw [splitext_eq_self_of_le hp1]
    show path.data <+: (path ++ "_" ++ s5x ++ ("" : String)).data
    rw [hpd]
    exact ⟨'_' :: s5x.data, rfl⟩

lemma uniqueLoop_spec (fs : String → Bool) (stream : Nat → Nat) (stem ext : String) :
    ∀ fuel pos path p pos2,
      uniqueLoop fs stream stem ext fuel pos path = some (p, pos2) →
      fs p = false ∧ (p = path ∨ ∃ i, p = stem ++ "_" ++ suffix5 stream i ++ ext) := by
  intro fuel
  induction fuel with
  | zero =>
    intro pos path p pos2 h
    exact absurd h (by simp [uniqueLoop])
  | succ n ih =>
    intro pos path p pos2 h
    simp only [uniqueLoop] at h
    by_cases hfs : fs path = true
    · rw [if_pos hfs] at h
      rcases ih _ _ _ _ h with ⟨h1, h2 | h2⟩
      · exact ⟨h1, Or.inr ⟨pos, h2⟩⟩
      · exact ⟨h1, Or.inr h2⟩
    · rw [if_neg hfs] at h
      have hp : path = p := by
        have := Option.some.inj h
        exact congrArg Prod.fst this
      rw [← hp]
      exact ⟨Bool.eq_false_iff.mpr hfs, Or.inl rfl⟩

/-- Claim C3: if no filesystem entry exists at the candidate path the
unique-path resolver returns it unchanged; if one exists, any path it
returns does not exist, has the form stem, underscore, 5-character
alphanumeric suffix, extension, and its own stem begins with the original
stem. -/
theorem claim_C3_unique_path (fs : String → Bool) (stream : Nat → Nat)
    (fuel pos : Nat) (path : String) :
    (fs path = false →
      get_unique_path fs stream (fuel + 1) pos path = some (path, pos)) ∧
    (∀ p pos2, fs path = true →
      get_unique_path fs stream fuel pos path = some (p, pos2) →
      fs p = false ∧
      ∃ i, p = (splitext path).1 ++ "_" ++ suffix5 stream i ++ (splitext path).2 ∧
        (suffix5 stream i).length = 5 ∧
        (∀ c ∈ (suffix5 stream i).data, c ∈ alphabet) ∧
        (splitext path).1.data <+: (splitext p).1.data) := by
  constructor
  · intro h
    simp only [get_unique_path, uniqueLoop]
    rw [if_neg (by rw [h]; exact Bool.false_ne_true)]
  · intro p pos2 hex h
    rcases uniqueLoop_spec fs stream _ _ fuel pos path p pos2 h with ⟨h1, h2 | h2⟩
    · rw [h2] at h1
      rw [h1] at hex
      exact absurd hex Bool.false_ne_true
    · obtain ⟨i, hi⟩ := h2
      refine ⟨h1, i, hi, suffix5_length stream i, suffix5_mem_alphabet stream i, ?_⟩
      rw [hi]
      exact splitext_stem_extends path (suffix5 stream i)
        (fun c hc => alphabet_no_sep c (suffix5_mem_alphabet stream i c hc))

/-- Witness for claim C3: a filesystem on which exactly "a.txt" exists,
the constant-zero random stream, and the candidate "a.txt"; the resolver
returns the fresh path "a_aaaaa.txt". -/
theorem claim_C3_unique_path_witness :
    (fun s => s == "a.txt") "a_aaaaa.txt" = false ∧
    ∃ i, "a_aaaaa.txt" = (splitext "a.txt").1 ++ "_" ++ suffix5 (fun _ => 0) i
        ++ (splitext "a.txt").2 ∧
      (suffix5 (fun _ => 0) i).length = 5 ∧
      (∀ c ∈ (suffix5 (fun _ => 0) i).data, c ∈ alphabet) ∧
      (splitext "a.txt").1.data <+: (splitext "a_aaaaa.txt").1.data :=
  (claim_C3_unique_path (fun s => s == "a.txt") (fun _ => 0) 2 0 "a.txt").2
    "a_aaaaa.txt" 5 rfl rfl

/-- Embedding of `os.path.join` for two components (POSIX rules): an
absolute second component wins; otherwise a separator is inserted unless
the first component is empty or already ends in one. -/
def joinPath (a b : String) : String :=
  if b.data.head? == some '/' then b
  else if a.data.isEmpty || a.data.getLast? == some '/' then a ++ b
  else a ++ "/" ++ b

/-- Embedding of `os.path.basename`: the part after the last slash. -/
def basename (p : String) : String :=
  String.mk (p.data.drop (rfind p.data '/' + 1).toNat)

/-- The message of the TypeError raised when the regular-expression
substitution is applied to an absent filename. -/
def noneFilenameMsg : String := "expected string or bytes-like object"

/-- The message of the IndexError raised when an embedded message has no
sub-part. -/
def indexErrMsg : String := "list index out of range"

/-- The message of the OSError raised when a path cannot be opened or a
directory cannot be created. -/
def permissionMsg : String := "Permission denied"

/-- The message of the TypeError raised when a decoded payload is absent
and handed to a binary write. -/
def decodeNoneMsg : String := "a bytes-like object is required, not NoneType"

/-- Run-wide flags: organize mode and keep-duplicates mode. -/
structure Config where
  organize : Bool
  keep : Bool

/-- The ambient world: which paths parse to a message when read, the
random stream, and which paths may be created or written. -/
structure World where
  readFile : String → Option Msg
  stream : Nat → Nat
  writable : String → Bool

/-- A completed write of one attachment: either the textual serialization
of a nested message through the generator, or a binary write of decoded
bytes. -/
inductive WriteAction : Type where
  | textSerialize : String → Msg → WriteAction
  | binaryWrite : String → List Nat → WriteAction

def WriteAction.path : WriteAction → String
  | .textSerialize p _ => p
  | .binaryWrite p _ => p

/-- Result of one `save_attachment` call: a successful write action, or a
raised error carrying its message and the path of a file created before
the failure (if any); both record the advanced random-stream position. -/
inductive SaveResult : Type where
  | ok : WriteAction → Nat → SaveResult
  | err : String → Option String → Nat → SaveResult

/-- Mark one more path as existing on the filesystem. -/
def fsAdd (fs : String → Bool) (p : String) : String → Bool :=
  fun q => q == p || fs q

/-- Mark an optionally created path as existing. -/
def fsAddOpt (fs : String → Bool) : Option String → (String → Bool)
  | none => fs
  | some p => fsAdd fs p

/-- Embedding of `save_attachment`.  The declared filename is sanitized
(raising when absent), joined to the location, made unique when the keep
flag is set, and the attachment body is written: a `message/rfc822` part
serializes its first sub-part as text through the generator, every other
content type writes the decoded payload in binary (the file is created
before the decode failure surfaces).  `none` models a diverging
unique-path search. -/
def save_attachment (w : World) (fs : String → Bool) (fuel pos : Nat)
    (location : String) (attachment : Msg) (keep : Bool) : Option SaveResult :=
  match attachment.filename with
  | none => some (.err noneFilenameMsg none pos)
  | some f0 =>
    match (if keep then
        get_unique_path fs w.stream fuel pos
          (joinPath location (sanitize_filename f0))
      else some (joinPath location (sanitize_filename f0), pos)) with
    | none => none
    | some (path, pos2) =>
      if attachment.content_type == "message/rfc822" then
        match attachment.parts.head? with
        | none => some (.err indexErrMsg none pos2)
        | some sub =>
          if w.writable path then some (.ok (.textSerialize path sub) pos2)
          else some (.err permissionMsg none pos2)
      else
        if w.writable path then
          match attachment.decoded with
          | none => some (.err decodeNoneMsg (some path) pos2)
          | some bytes => some (.ok (.binaryWrite path bytes) pos2)
        else some (.err permissionMsg none pos2)

/-- Observable events of a run: a line on standard output, a line on the
error stream, a directory creation, and a completed attachment write. -/
inductive Event : Type where
  | out : String → Event
  | err : String → Event
  | mkdir : String → Event
  | write : WriteAction → Event

/-- The attachment loop inside `main`'s try block: saves the attachments
in order, stopping at the first raised error, which propagates to the
per-file handler together with the filesystem and stream state. -/
def processLoop (w : World) (loc : String) (keep : Bool) (fuel : Nat) :
    List Msg → (String → Bool) → Nat →
    Option (List Event × (String → Bool) × Nat × Option String)
  | [], fs, pos => some ([], fs, pos, none)
  | a :: rest, fs, pos =>
    match save_attachment w fs fuel pos loc a keep with
    | none => none
    | some (.err e created pos2) => some ([], fsAddOpt fs created, pos2, some e)
    | some (.ok act pos2) =>
      match processLoop w loc keep fuel rest (fsAdd fs act.path) pos2 with
      | none => none
      | some (evs, fs3, pos3, r) => some (Event.write act :: evs, fs3, pos3, r)

/-- The error line `main` prints to the error stream. -/
def errLine (ctx e : String) : String :=
  "Error: " ++ ctx ++ " <" ++ e ++ ">"

/-- The per-file read-failure line on the error stream. -/
def readFailLine (eml : String) : String :=
  "Error: " ++ eml ++ " <failed to read file>"

/-- The per-file summary line on standard output. -/
def outLine (eml : String) (n : Nat) : String :=
  eml ++ " (" ++ Nat.repr n ++ ")"

/-- The output directory before uniquification: `attachments`, or a
per-input subfolder named by the input's stem in organize mode. -/
def baseLocation (cfg : Config) (eml : String) : String :=
  if !cfg.organize then "attachments"
  else joinPath "attachments" (basename (splitext eml).1)

/-- The output-directory computation of `main`: the base location, made
unique when both organize and keep are set. -/
def locResolve (w : World) (cfg : Config) (fuel : Nat) (fs : String → Bool)
    (pos : Nat) (eml : String) : Option (String × Nat) :=
  if cfg.organize && cfg.keep then
    get_unique_path fs w.stream fuel pos (baseLocation cfg eml)
  else some (baseLocation cfg eml, pos)

/-- Embedding of one iteration of `main`'s loop over input files: read
the message, select attachments, and inside the try block compute the
output directory, create it, and save each attachment; any raised error
is caught and reported as a per-file error line on the error stream. -/
def processEml (w : World) (cfg : Config) (fuel : Nat) (fs : String → Bool)
    (pos : Nat) (eml : String) :
    Option (List Event × (String → Bool) × Nat) :=
  match w.readFile eml with
  | none => some ([Event.err (readFailLine eml)], fs, pos)
  | some msg =>
    match get_attachments msg with
    | none => some ([Event.out (outLine eml 0)], fs, pos)
    | some [] => some ([Event.out (outLine eml 0)], fs, pos)
    | some (a :: l) =>
      match locResolve w cfg fuel fs pos eml with
      | none => none
      | some (loc, pos1) =>
        if w.writable loc then
          match processLoop w loc cfg.keep fuel (a :: l) (fsAdd fs loc) pos1 with
          | none => none
          | some (evs, fs2, pos2, none) =>
            some (Event.mkdir loc ::
              (evs ++ [Event.out (outLine eml (a :: l).length)]), fs2, pos2)
          | some (evs, fs2, pos2, some e) =>
            some (Event.mkdir loc ::
              (evs ++ [Event.err (errLine (basename eml) e)]), fs2, pos2)
        else some ([Event.err (errLine (basename eml) permissionMsg)], fs, pos1)

/-- Embedding of `main`'s loop over all resolved input paths, collecting
the observable events of the whole run. -/
def runMain (w : World) (cfg : Config) (fuel : Nat) :
    List String → (String → Bool) → Nat → Option (List Event)
  | [], _, _ => some []
  | eml :: rest, fs, pos =>
    match processEml w cfg fuel fs pos eml with
    | none => none
    | some (evs, fs1, pos1) =>
      match runMain w cfg fuel rest fs1 pos1 with
      | none => none
      | some evs2 => some (evs ++ evs2)

/-- Claim C4: with the keep flag set, the writer's destination passes
through the unique-path resolver, so any path it creates (the target of a
successful write, or a file created just before a failure) did not exist
before the call; with the flag unset, the composed path
location/sanitized-filename is used as-is, whatever the filesystem holds
there. -/
theorem claim_C4_keep_no_overwrite (w : World) (fs : String → Bool)
    (fuel pos : Nat) (location : String) (a : Msg) :
    (∀ act pos2,
      save_attachment w fs fuel pos location a true = some (.ok act pos2) →
      fs act.path = false) ∧
    (∀ e cr pos2,
      save_attachment w fs fuel pos location a true = some (.err e (some cr) pos2) →
      fs cr = false) ∧
    (∀ f act pos2, a.filename = some f →
      save_attachment w fs fuel pos location a false = some (.ok act pos2) →
      act.path = joinPath location (sanitize_filename f) ∧ pos2 = pos) := by
  refine ⟨?_, ?_, ?_⟩
  · intro act pos2 h
    cases hf : a.filename with
    | none => simp [save_attachment, hf] at h
    | some f0 =>
      simp only [save_attachment, hf, if_true] at h
      cases hu : get_unique_path fs w.stream fuel pos
          (joinPath location (sanitize_filename f0)) with
      | none => rw [hu] at h; exact absurd h (by simp)
      | some pr =>
        obtain ⟨path, pos3⟩ := pr
        simp only [hu] at h
        have hfresh : fs path = false := by
          unfold get_unique_path at hu
          exact (uniqueLoop_spec fs w.stream _ _ fuel pos _ path pos3 hu).1
        by_cases hct : (a.content_type == "message/rfc822") = true
        · rw [if_pos hct] at h
          cases hhead : a.parts.head? with
          | none =>
            simp only [hhead] at h
            exact absurd h (by simp)
          | some sub =>
            simp only [hhead] at h
            by_cases hw : w.writable path = true
            · rw [if_pos hw] at h
              obtain ⟨h1, h2⟩ := SaveResult.ok.inj (Option.some.inj h)
              rw [← h1]
              exact hfresh
            · rw [if_neg hw] at h
              exact absurd h (by simp)
        · rw [if_neg hct] at h
          by_cases hw : w.writable path = true
          · rw [if_pos hw] at h
            cases hd : a.decoded with
            | none =>
              simp only [hd] at h
              exact absurd h (by simp)
            | some bytes =>
              simp only [hd] at h
              obtain ⟨h1, h2⟩ := SaveResult.ok.inj (Option.some.inj h)
              rw [← h1]
              exact hfresh
          · rw [if_neg hw] at h
            exact absurd h (by simp)
  · intro e cr pos2 h
    cases hf : a.filename with
    | none => simp [save_attachment, hf] at h
    | some f0 =>
      simp only [save_attachment, hf, if_true] at h
      cases hu : get_unique_path fs w.stream fuel pos
          (joinPath location (sanitize_filename f0)) with
      | none => rw [hu] at h; exact absurd h (by simp)
      | some pr =>
        obtain ⟨path, pos3⟩ := pr
        simp only [hu] at h
        have hfresh : fs path = false := by
          unfold get_unique_path at hu
          exact (uniqueLoop_spec fs w.stream _ _ fuel pos _ path pos3 hu).1
        by_cases hct : (a.content_type == "message/rfc822") = true
        · rw [if_pos hct] at h
          cases hhead : a.parts.head? with
          | none =>
            simp only [hhead] at h
            obtain ⟨_, h2, _⟩ := SaveResult.err.inj (Option.some.inj h)
            exact absurd h2 (by simp)
          | some sub =>
            simp only [hhead] at h
            by_cases hw : w.writable path = true
            · rw [if_pos hw] at h
              exact absurd h (by simp)
            · rw [if_neg hw] at h
              obtain ⟨_, h2, _⟩ := SaveResult.err.inj (Option.some.inj h)
              exact absurd h2 (by simp)
        · rw [if_neg hct] at h
          by_cases hw : w.writable path = true
          · rw [if_pos hw] at h
            cases hd : a.decoded with
            | none =>
              simp only [hd] at h
              obtain ⟨_, h2, _⟩ := SaveResult.err.inj (Option.some.inj h)
              rw [← Option.some.inj h2]
              exact hfresh
            | some bytes =>
              simp only [hd] at h
              exact absurd h (by simp)
          · rw [if_neg hw] at h
            obtain ⟨_, h2, _⟩ := SaveResult.err.inj (Option.some.inj h)
            exact absurd h2 (by simp)
  · intro f act pos2 hf h
    simp only [save_attachment, hf, Bool.false_eq_true, if_false] at h
    by_cases hct : (a.content_type == "message/rfc822") = true
    · rw [if_pos hct] at h
      cases hhead : a.parts.head? with
      | none =>
        simp only [hhead] at h
        exact absurd h (by simp)
      | some sub =>
        simp only [hhead] at h
        by_cases hw : w.writable (joinPath location (sanitize_filename f)) = true
        · rw [if_pos hw] at h
          obtain ⟨h1, h2⟩ := SaveResult.ok.inj (Option.some.inj h)
          rw [← h1, ← h2]
          exact ⟨rfl, rfl⟩
        · rw [if_neg hw] at h
          exact absurd h (by simp)
    · rw [if_neg hct] at h
      by_cases hw : w.writable (joinPath location (sanitize_filename f)) = true
      · rw [if_pos hw] at h
        cases hd : a.decoded with
        | none =>
          simp only [hd] at h
          exact absurd h (by simp)
        | some bytes =>
          simp only [hd] at h
          obtain ⟨h1, h2⟩ := SaveResult.ok.inj (Option.some.inj h)
          rw [← h1, ← h2]
          exact ⟨rfl, rfl⟩
      · rw [if_neg hw] at h
        exact absurd h (by simp)

/-- Witness for claim C4: a filesystem on which the composed destination
already exists; the keep-mode writer lands on a fresh suffixed path. -/
theorem claim_C4_keep_no_overwrite_witness :
    (fun s => s == "attachments/r.docx")
      (WriteAction.binaryWrite "attachments/r_aaaaa.docx" [7]).path = false :=
  (claim_C4_keep_no_overwrite ⟨fun _ => none, fun _ => 0, fun _ => true⟩
      (fun s => s == "attachments/r.docx") 2 0 "attachments"
      (Msg.mk false [] true none "application/octet-stream" (some "r.docx") []
        (some [7]))).1
    (WriteAction.binaryWrite "attachments/r_aaaaa.docx" [7]) 5 rfl

/-- Claim C5: a successful save of an attachment whose content type is
message/rfc822 serializes the attachment's first sub-part in text form to
the destination path; with any other content type, it writes the decoded
payload bytes to the destination path in binary form. -/
theorem claim_C5_content_dispatch (w : World) (fs : String → Bool)
    (fuel pos : Nat) (loc : String) (a : Msg) (keep : Bool)
    (act : WriteAction) (pos2 : Nat)
    (h : save_attachment w fs fuel pos loc a keep = some (.ok act pos2)) :
    (a.content_type = "message/rfc822" →
      ∃ sub, a.parts.head? = some sub ∧ act = .textSerialize act.path sub) ∧
    (¬ a.content_type = "message/rfc822" →
      ∃ bytes, a.decoded = some bytes ∧ act = .binaryWrite act.path bytes) := by
  cases hf : a.filename with
  | none => simp [save_attachment, hf] at h
  | some f0 =>
    simp only [save_attachment, hf] at h
    cases hres : (if keep then
        get_unique_path fs w.stream fuel pos (joinPath loc (sanitize_filename f0))
      else some (joinPath loc (sanitize_filename f0), pos)) with
    | none => rw [hres] at h; exact absurd h (by simp)
    | some pr =>
      obtain ⟨path, pos3⟩ := pr
      simp only [hres] at h
      by_cases hct : (a.content_type == "message/rfc822") = true
      · rw [if_pos hct] at h
        cases hhead : a.parts.head? with
        | none =>
          simp only [hhead] at h
          exact absurd h (by simp)
        | some sub =>
          simp only [hhead] at h
          by_cases hw : w.writable path = true
          · rw [if_pos hw] at h
            obtain ⟨h1, _⟩ := SaveResult.ok.inj (Option.some.inj h)
            constructor
            · intro _
              exact ⟨sub, rfl, by rw [← h1]; rfl⟩
            · intro hcontra
              exact absurd (beq_iff_eq.mp hct) hcontra
          · rw [if_neg hw] at h
            exact absurd h (by simp)
      · rw [if_neg hct] at h
        by_cases hw : w.writable path = true
        · rw [if_pos hw] at h
          cases hd : a.decoded with
          | none =>
            simp only [hd] at h
            exact absurd h (by simp)
          | some bytes =>
            simp only [hd] at h
            obtain ⟨h1, _⟩ := SaveResult.ok.inj (Option.some.inj h)
            constructor
            · intro hcontra
              exact absurd (beq_iff_eq.mpr hcontra) hct
            · intro _
              exact ⟨bytes, rfl, by rw [← h1]; rfl⟩
        · rw [if_neg hw] at h
          exact absurd h (by simp)

/-- Witness for claim C5: a concrete rfc822 attachment whose single
sub-part is serialized as text. -/
theorem claim_C5_content_dispatch_witness :
    ((Msg.mk false [] true none "message/rfc822" (some "fwd.eml")
        [Msg.mk false [] false none "text/plain" none [] none] none).content_type
      = "message/rfc822" →
      ∃ sub, (Msg.mk false [] true none "message/rfc822" (some "fwd.eml")
          [Msg.mk false [] false none "text/plain" none [] none] none).parts.head?
          = some sub ∧
        WriteAction.textSerialize "attachments/fwd.eml"
            (Msg.mk false [] false none "text/plain" none [] none)
          = WriteAction.textSerialize
              (WriteAction.textSerialize "attachments/fwd.eml"
                (Msg.mk false [] false none "text/plain" none [] none)).path sub) ∧
    (¬ (Msg.mk false [] true none "message/rfc822" (some "fwd.eml")
        [Msg.mk false [] false none "text/plain" none [] none] none).content_type
      = "message/rfc822" →
      ∃ bytes, (Msg.mk false [] true none "message/rfc822" (some "fwd.eml")
          [Msg.mk false [] false none "text/plain" none [] none] none).decoded
          = some bytes ∧
        WriteAction.textSerialize "attachments/fwd.eml"
            (Msg.mk false [] false none "text/plain" none [] none)
          = WriteAction.binaryWrite
              (WriteAction.textSerialize "attachments/fwd.eml"
                (Msg.mk false [] false none "text/plain" none [] none)).path bytes) :=
  claim_C5_content_dispatch ⟨fun _ => none, fun _ => 0, fun _ => true⟩
    (fun _ => false) 1 0 "attachments"
    (Msg.mk false [] true none "message/rfc822" (some "fwd.eml")
      [Msg.mk false [] false none "text/plain" none [] none] none)
    false
    (WriteAction.textSerialize "attachments/fwd.eml"
      (Msg.mk false [] false none "text/plain" none [] none)) 0 rfl

/-- Claim C6: when saving an attachment raises, the attachment loop stops
there — appending further attachments changes nothing about the result —
the per-file handler reports an error line built from the underlying
error message on the error stream, and the run continues with the next
input file. -/
theorem claim_C6_write_failure_isolated :
    (∀ w loc keep fuel atts fs pos r e tail,
      processLoop w loc keep fuel atts fs pos = some r →
      r.2.2.2 = some e →
      processLoop w loc keep fuel (atts ++ tail) fs pos = some r) ∧
    (∀ w cfg fuel fs pos eml msg a l loc posL evs fs2 pos2 e,
      w.readFile eml = some msg →
      get_attachments msg = some (a :: l) →
      locResolve w cfg fuel fs pos eml = some (loc, posL) →
      w.writable loc = true →
      processLoop w loc cfg.keep fuel (a :: l) (fsAdd fs loc) posL
        = some (evs, fs2, pos2, some e) →
      processEml w cfg fuel fs pos eml
        = some (Event.mkdir loc ::
            (evs ++ [Event.err (errLine (basename eml) e)]), fs2, pos2)) ∧
    (∀ w cfg fuel eml rest fs pos evs1 fs1 pos1 evs2,
      processEml w cfg fuel fs pos eml = some (evs1, fs1, pos1) →
      runMain w cfg fuel rest fs1 pos1 = some evs2 →
      runMain w cfg fuel (eml :: rest) fs pos = some (evs1 ++ evs2)) := by
  refine ⟨?_, ?_, ?_⟩
  · intro w loc keep fuel atts
    induction atts with
    | nil =>
      intro fs pos r e tail h he
      simp only [processLoop] at h
      rw [← Option.some.inj h] at he
      exact absurd he (by simp)
    | cons a rest ih =>
      intro fs pos r e tail h he
      rw [List.cons_append]
      simp only [processLoop] at h ⊢
      cases hsave : save_attachment w fs fuel pos loc a keep with
      | none => rw [hsave] at h; exact absurd h (by simp)
      | some sr =>
        cases sr with
        | err e2 created pos2 =>
          simp only [hsave] at h ⊢
          exact h
        | ok act pos2 =>
          simp only [hsave] at h ⊢
          cases hrec : processLoop w loc keep fuel rest (fsAdd fs act.path) pos2 with
          | none => rw [hrec] at h; exact absurd h (by simp)
          | some q =>
            obtain ⟨evs3, fs3, pos3, rr⟩ := q
            simp only [hrec] at h
            rw [← Option.some.inj h] at he ⊢
            have hrr : rr = some e := by
              simpa using he
            rw [ih (fsAdd fs act.path) pos2 (evs3, fs3, pos3, rr) e tail hrec
              (by simpa using hrr)]
  · intro w cfg fuel fs pos eml msg a l loc posL evs fs2 pos2 e h1 h2 h3 h4 h5
    simp only [processEml, h1, h2, h3, h5]
    rw [if_pos h4]
  · intro w cfg fuel eml rest fs pos evs1 fs1 pos1 evs2 h1 h2
    simp only [runMain, h1, h2]

/-- The sample attachment without a declared filename. -/
def attNoName : Msg :=
  Msg.mk false [] true none "application/pdf" none [] (some [1])

/-- A sample multipart message whose only attachment has no filename. -/
def msgOneBad : Msg :=
  Msg.mk true [attNoName] false none "multipart/mixed" none [] none

/-- A sample world: only "bad.eml" is readable, everything is writable,
the random stream is constantly zero. -/
def sampleWorld : World :=
  ⟨fun e => if e == "bad.eml" then some msgOneBad else none,
   fun _ => 0, fun _ => true⟩

/-- Witness for claim C6 at the sample world: the failing attachment
stops the loop whatever follows it, the per-file handler reports it, and
the next input is still processed. -/
theorem claim_C6_write_failure_isolated_witness :
    processLoop sampleWorld "attachments" false 1 ([attNoName] ++ [attNoName])
        (fun _ => false) 0
      = some ([], fun _ => false, 0, some noneFilenameMsg) ∧
    processEml sampleWorld ⟨false, false⟩ 1 (fun _ => false) 0 "bad.eml"
      = some (Event.mkdir "attachments" ::
          ([] ++ [Event.err (errLine (basename "bad.eml") noneFilenameMsg)]),
          fsAdd (fun _ => false) "attachments", 0) ∧
    runMain sampleWorld ⟨false, false⟩ 1 ["missing.eml"] (fun _ => false) 0
      = some ([Event.err (readFailLine "missing.eml")] ++ []) :=
  ⟨claim_C6_write_failure_isolated.1 sampleWorld "attachments" false 1
      [attNoName] (fun _ => false) 0
      ([], fun _ => false, 0, some noneFilenameMsg) noneFilenameMsg
      [attNoName] rfl rfl,
   claim_C6_write_failure_isolated.2.1 sampleWorld ⟨false, false⟩ 1
      (fun _ => false) 0 "bad.eml" msgOneBad attNoName [] "attachments" 0 []
      (fsAdd (fun _ => false) "attachments") 0 noneFilenameMsg
      rfl rfl rfl rfl rfl,
   claim_C6_write_failure_isolated.2.2 sampleWorld ⟨false, false⟩ 1
      "missing.eml" [] (fun _ => false) 0 [Event.err (readFailLine "missing.eml")]
      (fun _ => false) 0 [] rfl rfl⟩

/-- Claim C7: an unreadable input contributes exactly one error line on
the error stream — no output file, no summary line — and the run goes on
to the remaining inputs, whose results are unchanged. -/
theorem claim_C7_read_error (w : World) (cfg : Config) (fuel : Nat)
    (fs : String → Bool) (pos : Nat) (eml : String) (rest : List String)
    (h : w.readFile eml = none) :
    processEml w cfg fuel fs pos eml
      = some ([Event.err (readFailLine eml)], fs, pos) ∧
    ∀ evs2, runMain w cfg fuel rest fs pos = some evs2 →
      runMain w cfg fuel (eml :: rest) fs pos
        = some (Event.err (readFailLine eml) :: evs2) := by
  have h1 : processEml w cfg fuel fs pos eml
      = some ([Event.err (readFailLine eml)], fs, pos) := by
    simp only [processEml, h]
  refine ⟨h1, ?_⟩
  intro evs2 h2
  simp only [runMain, h1, h2, List.singleton_append]

/-- Witness for claim C7: the unreadable input "missing.eml" followed by
the readable input "bad.eml" of the sample world. -/
theorem claim_C7_read_error_witness :
    processEml sampleWorld ⟨false, false⟩ 1 (fun _ => false) 0 "missing.eml"
      = some ([Event.err (readFailLine "missing.eml")], fun _ => false, 0) ∧
    runMain sampleWorld ⟨false, false⟩ 1 ["missing.eml", "bad.eml"]
        (fun _ => false) 0
      = some (Event.err (readFailLine "missing.eml") ::
          (Event.mkdir "attachments" ::
            ([] ++ [Event.err (errLine (basename "bad.eml") noneFilenameMsg)]) ++ [])) :=
  ⟨(claim_C7_read_error sampleWorld ⟨false, false⟩ 1 (fun _ => false) 0
      "missing.eml" ["bad.eml"] rfl).1,
   (claim_C7_read_error sampleWorld ⟨false, false⟩ 1 (fun _ => false) 0
      "missing.eml" ["bad.eml"] rfl).2
     (Event.mkdir "attachments" ::
       ([] ++ [Event.err (errLine (basename "bad.eml") noneFilenameMsg)]) ++ [])
     rfl⟩

/-- Claim C8: when both organize and keep are set, the per-input output
directory is itself routed through the unique-path resolver, any resolved
directory did not exist beforehand, and it is the directory that is then
created and used for the file's attachments. -/
theorem claim_C8_organize_keep_dir (w : World) (cfg : Config) (fuel : Nat)
    (fs : String → Bool) (pos : Nat) (eml : String) :
    (cfg.organize = true → cfg.keep = true →
      locResolve w cfg fuel fs pos eml
        = get_unique_path fs w.stream fuel pos
            (joinPath "attachments" (basename (splitext eml).1))) ∧
    (∀ loc posL, cfg.organize = true → cfg.keep = true →
      locResolve w cfg fuel fs pos eml = some (loc, posL) →
      fs loc = false) ∧
    (∀ msg a l loc posL evs fs2 pos2,
      w.readFile eml = some msg →
      get_attachments msg = some (a :: l) →
      locResolve w cfg fuel fs pos eml = some (loc, posL) →
      w.writable loc = true →
      processLoop w loc cfg.keep fuel (a :: l) (fsAdd fs loc) posL
        = some (evs, fs2, pos2, none) →
      processEml w cfg fuel fs pos eml
        = some (Event.mkdir loc ::
            (evs ++ [Event.out (outLine eml (a :: l).length)]), fs2, pos2)) := by
  refine ⟨?_, ?_, ?_⟩
  · intro ho hk
    simp only [locResolve, baseLocation, ho, hk, Bool.and_self, if_true,
      Bool.not_true, Bool.false_eq_true, if_false]
  · intro loc posL ho hk h
    simp only [locResolve, ho, hk, Bool.and_self, if_true] at h
    unfold get_unique_path at h
    exact (uniqueLoop_spec fs w.stream _ _ fuel pos _ loc posL h).1
  · intro msg a l loc posL evs fs2 pos2 h1 h2 h3 h4 h5
    simp only [processEml, h1, h2, h3, h5]
    rw [if_pos h4]

/-- A sample attachment with a declared filename and decoded payload. -/
def attGood : Msg :=
  Msg.mk false [] true none "application/pdf" (some "a.txt") [] (some [1, 2])

/-- A sample multipart message with one well-formed attachment. -/
def msgOneGood : Msg :=
  Msg.mk true [attGood] false none "multipart/mixed" none [] none

/-- A sample world in which "good.eml" parses to a message with one
well-formed attachment. -/
def goodWorld : World :=
  ⟨fun e => if e == "good.eml" then some msgOneGood else none,
   fun _ => 0, fun _ => true⟩

/-- Witness for claim C8 at the sample world with organize and keep both
set: the directory resolves through the unique-path resolver to a fresh
path and the run creates exactly that directory. -/
theorem claim_C8_organize_keep_dir_witness :
    locResolve goodWorld ⟨true, true⟩ 1 (fun _ => false) 0 "good.eml"
      = get_unique_path (fun _ => false) goodWorld.stream 1 0
          (joinPath "attachments" (basename (splitext "good.eml").1)) ∧
    (fun _ => false : String → Bool) "attachments/good" = false ∧
    processEml goodWorld ⟨true, true⟩ 1 (fun _ => false) 0 "good.eml"
      = some (Event.mkdir "attachments/good" ::
          ([Event.write (WriteAction.binaryWrite "attachments/good/a.txt" [1, 2])]
            ++ [Event.out (outLine "good.eml" [attGood].length)]),
          fsAdd (fsAdd (fun _ => false) "attachments/good") "attachments/good/a.txt",
          0) :=
  ⟨(claim_C8_organize_keep_dir goodWorld ⟨true, true⟩ 1 (fun _ => false) 0
      "good.eml").1 rfl rfl,
   (claim_C8_organize_keep_dir goodWorld ⟨true, true⟩ 1 (fun _ => false) 0
      "good.eml").2.1 "attachments/good" 0 rfl rfl rfl,
   (claim_C8_organize_keep_dir goodWorld ⟨true, true⟩ 1 (fun _ => false) 0
      "good.eml").2.2 msgOneGood attGood [] "attachments/good" 0
      [Event.write (WriteAction.binaryWrite "attachments/good/a.txt" [1, 2])]
      (fsAdd (fsAdd (fun _ => false) "attachments/good") "attachments/good/a.txt")
      0 rfl rfl rfl rfl rfl⟩

/-- Claim C10: an attachment whose declared filename is absent makes the
writer raise during sanitization, before any path is resolved or any file
is created; the loop then writes nothing for this and all remaining
attachments of the input, and the per-file handler reports the error line
on the error stream. -/
theorem claim_C10_missing_filename (w : World) (fs : String → Bool)
    (fuel pos : Nat) (loc : String) (a : Msg) (keep : Bool) (rest : List Msg)
    (hf : a.filename = none) :
    save_attachment w fs fuel pos loc a keep
      = some (.err noneFilenameMsg none pos) ∧
    processLoop w loc keep fuel (a :: rest) fs pos
      = some ([], fs, pos, some noneFilenameMsg) ∧
    (∀ cfg eml msg l posL,
      w.readFile eml = some msg →
      get_attachments msg = some (a :: l) →
      locResolve w cfg fuel fs pos eml = some (loc, posL) →
      w.writable loc = true →
      processEml w cfg fuel fs pos eml
        = some ([Event.mkdir loc, Event.err (errLine (basename eml) noneFilenameMsg)],
            fsAdd fs loc, posL)) := by
  have hsave : ∀ k fsx posx, save_attachment w fsx fuel posx loc a k
      = some (.err noneFilenameMsg none posx) := by
    intro k fsx posx
    simp only [save_attachment, hf]
  have hloop : ∀ k fsx posx rx, processLoop w loc k fuel (a :: rx) fsx posx
      = some ([], fsx, posx, some noneFilenameMsg) := by
    intro k fsx posx rx
    simp only [processLoop, hsave k fsx posx]
    rfl
  refine ⟨hsave keep fs pos, hloop keep fs pos rest, ?_⟩
  intro cfg eml msg l posL h1 h2 h3 h4
  simp only [processEml, h1, h2, h3, hloop cfg.keep (fsAdd fs loc) posL l]
  rw [if_pos h4]
  rfl

/-- Witness for claim C10 at the sample world: the filename-less
attachment of "bad.eml" yields no write and one reported error. -/
theorem claim_C10_missing_filename_witness :
    save_attachment sampleWorld (fun _ => false) 1 0 "attachments" attNoName false
      = some (.err noneFilenameMsg none 0) ∧
    processLoop sampleWorld "attachments" false 1 [attNoName, attGood]
        (fun _ => false) 0
      = some ([], fun _ => false, 0, some noneFilenameMsg) ∧
    processEml sampleWorld ⟨false, false⟩ 1 (fun _ => false) 0 "bad.eml"
      = some ([Event.mkdir "attachments",
          Event.err (errLine (basename "bad.eml") noneFilenameMsg)],
          fsAdd (fun _ => false) "attachments", 0) :=
  ⟨(claim_C10_missing_filename sampleWorld (fun _ => false) 1 0 "attachments"
      attNoName false [attGood] rfl).1,
   (claim_C10_missing_filename sampleWorld (fun _ => false) 1 0 "attachments"
      attNoName false [attGood] rfl).2.1,
   (claim_C10_missing_filename sampleWorld (fun _ => false) 1 0 "attachments"
      attNoName false [attGood] rfl).2.2 ⟨false, false⟩ "bad.eml" msgOneBad [] 0
      rfl rfl rfl rfl⟩
